import Mathlib

/-!
Verification of the team-calendar aggregation command of gogcli
(`calendar team`): member extraction, per-event normalization and
filtering, time parsing, sorting, deduplication by event id, and the
bounded fan-out discipline.  Go code is embedded shallowly: strings are
Lean strings (ASCII case folding models `strings.ToLower`), `time.Time`
is an `Int` counting seconds since Go's zero time (0001-01-01T00:00:00
UTC), nil pointers are `Option`, and the goroutine fan-out is modelled
as a transition system respectively as a fold in member order.
-/

namespace Gogcli

/-! ### String helpers (models of Go `strings` functions) -/

/-- Model of `strings.ToLower` on ASCII letters. -/
def lowerChar (c : Char) : Char :=
  if 'A' ≤ c && c ≤ 'Z' then Char.ofNat (c.toNat + 32) else c

/-- Model of `strings.ToLower`. -/
def strToLower (s : String) : String :=
  String.mk (s.data.map lowerChar)

/-- Whether the first list is an initial segment of the second. -/
def listPre : List Char → List Char → Bool
  | [], _ => true
  | _ :: _, [] => false
  | a :: as, b :: bs => a == b && listPre as bs

/-- Whether `pat` occurs as a contiguous segment of the second list. -/
def listSub (pat : List Char) : List Char → Bool
  | [] => pat.isEmpty
  | c :: rest => listPre pat (c :: rest) || listSub pat rest

/-- Model of `strings.Contains s sub`. -/
def strContains (s sub : String) : Bool :=
  listSub sub.data s.data

/-- Comma-space join of a list of strings (the shape produced by the
`who` accumulation in `dedupeTeamEvents`). -/
def joinComma : List String → String
  | [] => ""
  | [w] => w
  | w :: x :: rest => w ++ ", " ++ joinComma (x :: rest)

/-! ### Civil time (model of the parts of Go `time` used here) -/

/-- Gregorian leap-year test, as in Go `time.isLeap`. -/
def isLeap (y : Nat) : Bool :=
  y % 4 == 0 && (y % 100 != 0 || y % 400 == 0)

/-- Length of month `m` of year `y`. -/
def daysInMonth (y m : Nat) : Nat :=
  match m with
  | 2 => if isLeap y then 29 else 28
  | 4 | 6 | 9 | 11 => 30
  | _ => 31

/-- Days contributed by the months of year `y` strictly before month `m`. -/
def daysBeforeMonth (y m : Nat) : Nat :=
  (List.range (m - 1)).foldl (fun acc i => acc + daysInMonth y (i + 1)) 0

/-- Number of leap years in `[0, y)` (year 0 is a leap year). -/
def leapsBefore (y : Nat) : Nat :=
  (y + 3) / 4 - (y + 99) / 100 + (y + 399) / 400

/-- Days from 0000-01-01 to the civil date `y-m-d` (proleptic Gregorian). -/
def daysSinceYear0 (y m d : Nat) : Nat :=
  365 * y + leapsBefore y + daysBeforeMonth y m + (d - 1)

/-- Days from Go's zero time date 0001-01-01 to the civil date `y-m-d`;
negative for year 0. -/
def dateToDays (y m d : Nat) : Int :=
  (daysSinceYear0 y m d : Int) - 366

/-- Value of an ASCII digit character. -/
def digitVal (c : Char) : Option Nat :=
  if '0' ≤ c && c ≤ '9' then some (c.toNat - 48) else none

/-- Two fixed digits, as Go layout elements `01`/`02`/`15`/`04`/`05`. -/
def parse2 (a b : Char) : Option Nat :=
  match digitVal a, digitVal b with
  | some x, some y => some (10 * x + y)
  | _, _ => none

/-- Four fixed digits, as the Go layout element `2006`. -/
def parse4 (a b c d : Char) : Option Nat :=
  match digitVal a, digitVal b, digitVal c, digitVal d with
  | some w, some x, some y, some z => some (1000 * w + 100 * x + 10 * y + z)
  | _, _, _, _ => none

/-- Model of `time.Parse("2006-01-02", s)`, kept as the validated civil
date: exactly ten characters, dashes in place, month and day in range. -/
def parseCivilDate (s : String) : Option (Nat × Nat × Nat) :=
  match s.data with
  | [y1, y2, y3, y4, '-', m1, m2, '-', d1, d2] =>
    match parse4 y1 y2 y3 y4, parse2 m1 m2, parse2 d1 d2 with
    | some y, some m, some d =>
      if 1 ≤ m && m ≤ 12 && 1 ≤ d && d ≤ daysInMonth y m then some (y, m, d) else none
    | _, _, _ => none
  | _ => none

/-- Model of `time.Parse("2006-01-02", s)` as a day count from Go's zero
time date; the corresponding `time.Time` is midnight UTC of that date,
i.e. `86400 *` this value in seconds. -/
def parseDate (s : String) : Option Int :=
  (parseCivilDate s).map (fun x => dateToDays x.1 x.2.1 x.2.2)

/-- The RFC 3339 numeric offset suffix (`Z`, or `±hh:mm`), in seconds. -/
def offsetSecs : List Char → Option Int
  | ['Z'] => some 0
  | [sign, h1, h2, ':', m1, m2] =>
    match parse2 h1 h2, parse2 m1 m2 with
    | some oh, some om =>
      if (sign == '+' || sign == '-') && oh ≤ 23 && om ≤ 59 then
        some (if sign == '-' then -(oh * 3600 + om * 60 : Int) else (oh * 3600 + om * 60 : Int))
      else none
    | _, _ => none
  | _ => none

/-- Consume an optional fractional-seconds part `.d+` (ignored, as the
claims never depend on sub-second precision). -/
def dropFraction (cs : List Char) : List Char :=
  match cs with
  | '.' :: rest =>
    if (rest.takeWhile (fun c => '0' ≤ c && c ≤ '9')).isEmpty then cs
    else rest.dropWhile (fun c => '0' ≤ c && c ≤ '9')
  | _ => cs

/-- Model of `time.Parse(time.RFC3339, s)`: seconds since Go's zero time,
with field validation and offset applied. -/
def parseRFC3339 (s : String) : Option Int :=
  match s.data with
  | y1 :: y2 :: y3 :: y4 :: '-' :: m1 :: m2 :: '-' :: d1 :: d2 :: 'T' ::
      h1 :: h2 :: ':' :: i1 :: i2 :: ':' :: s1 :: s2 :: rest =>
    match parse4 y1 y2 y3 y4, parse2 m1 m2, parse2 d1 d2,
          parse2 h1 h2, parse2 i1 i2, parse2 s1 s2 with
    | some y, some mo, some dy, some hh, some mi, some ss =>
      if 1 ≤ mo && mo ≤ 12 && 1 ≤ dy && dy ≤ daysInMonth y mo
          && hh ≤ 23 && mi ≤ 59 && ss ≤ 59 then
        match offsetSecs (dropFraction rest) with
        | some off =>
          some ((86400 : Int) * dateToDays y mo dy + ((hh * 3600 + mi * 60 + ss : Nat) : Int) - off)
        | none => none
      else none
    | _, _, _, _, _, _ => none
  | _ => none

/-- Two-digit zero padding, as in Go's `15`/`04` layout elements. -/
def pad2 (n : Nat) : String :=
  (if n < 10 then "0" else "") ++ toString n

/-- Model of `t.In(loc).Format("15:04")` for a fixed-offset location of
`loc` seconds east of UTC. -/
def format1504 (t loc : Int) : String :=
  let sod := ((t + loc) % 86400).toNat
  pad2 (sod / 3600) ++ ":" ++ pad2 (sod % 3600 / 60)

/-! ### Calendar API data (the fields of `calendar.Event` read here) -/

/-- The fields of `calendar.EventDateTime` used by this command; Go's
absent string fields are `""`. -/
structure EventDateTime where
  Date : String
  DateTime : String
deriving DecidableEq, Inhabited

/-- The fields of `calendar.EventAttendee` used by this command. -/
structure EventAttendee where
  ResponseStatus : String
  Self : Bool
deriving DecidableEq, Inhabited

/-- The fields of `calendar.Event` used by this command; nil pointers
become `none`. -/
structure Event where
  Id : String
  Summary : String
  Visibility : String
  Status : String
  Attendees : List EventAttendee
  Start : Option EventDateTime
  End : Option EventDateTime
deriving DecidableEq, Inhabited

/-- `teamEvent` of `calendar_team.go`: an event with owner information. -/
structure teamEvent where
  Who : String
  ID : String
  Start : String
  End : String
  Summary : String
  Status : String
  sortKey : Int
deriving DecidableEq, Inhabited

/-! ### The embedded functions of `calendar_team.go` -/

/-- `formatEventTime`: the displayed start/end strings of an event. -/
def formatEventTime (ev : Event) (loc : Int) : String × String :=
  match ev.Start with
  | none => ("", "")
  | some st =>
    if st.Date != "" then
      (st.Date,
        match ev.End with
        | some en => if en.Date != "" then en.Date else ""
        | none => "")
    else
      let start :=
        if st.DateTime != "" then
          match parseRFC3339 st.DateTime with
          | some t => format1504 t loc
          | none => ""
        else ""
      let stop :=
        match ev.End with
        | some en =>
          if en.DateTime != "" then
            match parseRFC3339 en.DateTime with
            | some t => format1504 t loc
            | none => ""
          else ""
        | none => ""
      (start, stop)

/-- `parseEventStart`: the internal sortable timestamp of an event; `0`
(Go's zero `time.Time`) when there is no start block or nothing parses. -/
def parseEventStart (ev : Event) : Int :=
  match ev.Start with
  | none => 0
  | some st =>
    match (if st.DateTime != "" then parseRFC3339 st.DateTime else none) with
    | some t => t
    | none =>
      match (if st.Date != "" then parseDate st.Date else none) with
      | some n => 86400 * n
      | none => 0

/-- The per-event body of the fetch loop in `runEvents`: declined-self
skip, privacy masking, query filter, and construction of the
`teamEvent`; `none` when the event is skipped. -/
def processEvent (queryLower email : String) (loc : Int) (ev : Event) : Option teamEvent :=
  let declined := ev.Attendees.any (fun att => att.Self && att.ResponseStatus == "declined")
  if declined then none
  else
    let summary :=
      if ev.Visibility == "private" || ev.Visibility == "confidential" then "(busy)"
      else ev.Summary
    if queryLower != "" && !strContains (strToLower summary) queryLower then none
    else
      let se := formatEventTime ev loc
      some { Who := email, ID := ev.Id, Start := se.1, End := se.2,
             Summary := summary, Status := ev.Status, sortKey := parseEventStart ev }

/-- The collection phase of `runEvents`, modelled with completions in
member order (the per-member goroutines append events and error strings
under one mutex; the claims are insensitive to the interleaving).
Returns the collected events and the error strings
`"<memberIdentity>: <underlying error>"`. -/
def aggregateEvents (fetch : String → Except String (List (Option Event)))
    (queryLower : String) (loc : Int) : List String → List teamEvent × List String
  | [] => ([], [])
  | email :: rest =>
    let tail := aggregateEvents fetch queryLower loc rest
    match fetch email with
    | .error e => (tail.1, (email ++ ": " ++ e) :: tail.2)
    | .ok items =>
      (items.filterMap (fun oev => oev.bind (processEvent queryLower email loc)) ++ tail.1,
        tail.2)

/-- The sort step of `runEvents` (`sort.Slice` by `sortKey.Before`),
modelled as a merge sort by the sortable timestamp. -/
def sortEvents (events : List teamEvent) : List teamEvent :=
  events.mergeSort (fun a b => decide (a.sortKey ≤ b.sortKey))

/-- Replace the element at position `i` (Go `result[idx].Who += ...`
acts on the slice in place). -/
def modifyAt (f : teamEvent → teamEvent) : Nat → List teamEvent → List teamEvent
  | _, [] => []
  | 0, x :: xs => f x :: xs
  | n + 1, x :: xs => x :: modifyAt f n xs

/-- The loop of `dedupeTeamEvents`: `seen` maps an event id to its index
in `result`. -/
def dedupeLoop : List teamEvent → List (String × Nat) → List teamEvent → List teamEvent
  | [], _, result => result
  | ev :: rest, seen, result =>
    match List.lookup ev.ID seen with
    | some idx =>
      dedupeLoop rest seen (modifyAt (fun r => { r with Who := r.Who ++ ", " ++ ev.Who }) idx result)
    | none =>
      dedupeLoop rest ((ev.ID, result.length) :: seen) (result ++ [ev])

/-- `dedupeTeamEvents`: merge events sharing an id, appending each later
contributor's `Who` to the first occurrence's entry. -/
def dedupeTeamEvents (events : List teamEvent) : List teamEvent :=
  dedupeLoop events [] []

/-! ### Group membership extraction (`CalendarTeamCmd.Run`) -/

/-- The fields of `cloudidentity.EntityKey` used here. -/
structure EntityKey where
  Id : String
deriving DecidableEq, Inhabited

/-- The fields of `cloudidentity.Membership` used here; `MemberType`
embeds the Go field `Type` (a reserved word in Lean). -/
structure GroupMembership where
  PreferredMemberKey : Option EntityKey
  MemberType : String
deriving DecidableEq, Inhabited

/-- The member-extraction loop of `Run`: skip nil memberships and nil
member keys, keep ids of type `USER` that contain an `@`. -/
def extractMemberEmails (ms : List (Option GroupMembership)) : List String :=
  ms.foldl (fun acc m =>
    match m with
    | none => acc
    | some mm =>
      match mm.PreferredMemberKey with
      | none => acc
      | some k =>
        if mm.MemberType == "USER" && strContains k.Id "@" then acc ++ [k.Id] else acc) []

/-- Outcome of the membership phase of `Run`: hard failure, diagnostic
printed to stderr with a nil error, or the member list to proceed with. -/
inductive MembersOutcome where
  | err (msg : String)
  | diagnostic (msg : String)
  | proceed (emails : List String)
deriving DecidableEq

/-- The membership phase of `Run` after the group lookup: a failed
listing is fatal; an empty group or a group with no user members prints
a diagnostic and returns success. -/
def membersPhase (groupEmail : String)
    (resp : Except String (List (Option GroupMembership))) : MembersOutcome :=
  match resp with
  | .error e => .err ("failed to list group members: " ++ e)
  | .ok ms =>
    if ms.length = 0 then .diagnostic ("No members in group " ++ groupEmail)
    else
      let memberEmails := extractMemberEmails ms
      if memberEmails.length = 0 then .diagnostic ("No user members in group " ++ groupEmail)
      else .proceed memberEmails

/-! ### Specification-side reformulations of the dedup step -/

/-- Accumulate, onto `w`, the `Who` of every event in `l` whose id is
`id`, comma-joined in order. -/
def whoFold (id w : String) (l : List teamEvent) : String :=
  l.foldl (fun acc x => if x.ID == id then acc ++ ", " ++ x.Who else acc) w

/-- Extend the `Who` of `e` by all contributors in `l` sharing its id. -/
def extendWho (e : teamEvent) (l : List teamEvent) : teamEvent :=
  { e with Who := whoFold e.ID e.Who l }

/-- Recursive reformulation of `dedupeTeamEvents`: keep the first
occurrence of each id, absorbing the `Who` of the later ones. -/
def dedupeSpec : List teamEvent → List teamEvent
  | [] => []
  | e :: rest => extendWho e rest :: dedupeSpec (rest.filter (fun x => x.ID != e.ID))
termination_by l => l.length
decreasing_by
  simp only [List.length_cons]
  exact Nat.lt_succ_of_le (List.length_filter_le _ _)

/-- The distinct values of a list, each at the position of its first
occurrence. -/
def firstIds : List String → List String
  | [] => []
  | i :: rest => i :: firstIds (rest.filter (fun x => x != i))
termination_by l => l.length
decreasing_by
  simp only [List.length_cons]
  exact Nat.lt_succ_of_le (List.length_filter_le _ _)

/-- Loop invariant of `dedupeLoop`: `seen` is exactly the index of each
id present in `result`. -/
def SeenInv (seen : List (String × Nat)) (result : List teamEvent) : Prop :=
  (∀ id i, List.lookup id seen = some i → ∃ e, result[i]? = some e ∧ e.ID = id) ∧
  (∀ i e, result[i]? = some e → List.lookup e.ID seen = some i)

/-! ### The fan-out semaphore discipline of `runEvents`

Each member's goroutine sends on the buffered channel `sem` (capacity
10) before issuing its events-list call and receives from it when it
finishes, so a worker holds a slot exactly while its fetch is in
flight. -/

/-- Phase of one per-member worker: not yet admitted, holding a
semaphore slot (fetch in flight), or finished (slot released). -/
inductive WorkerPhase where
  | pending
  | holding
  | finished
deriving DecidableEq

/-- State of the fan-out: the phase of each member's worker. -/
structure FanState where
  workers : List WorkerPhase
deriving DecidableEq

/-- Number of semaphore slots currently held. -/
def holdingCount (s : FanState) : Nat :=
  s.workers.countP (fun w => w == WorkerPhase.holding)

/-- One scheduler step: a pending worker may acquire a slot only when
fewer than 10 are held (`sem <- struct{}{}` on the capacity-10
channel); a holding worker may finish and release its slot. -/
inductive FanStep : FanState → FanState → Prop where
  | acquire (pre post : List WorkerPhase) :
      holdingCount ⟨pre ++ WorkerPhase.pending :: post⟩ < 10 →
      FanStep ⟨pre ++ WorkerPhase.pending :: post⟩ ⟨pre ++ WorkerPhase.holding :: post⟩
  | release (pre post : List WorkerPhase) :
      FanStep ⟨pre ++ WorkerPhase.holding :: post⟩ ⟨pre ++ WorkerPhase.finished :: post⟩

/-- Initial state: one pending worker per member. -/
def initState (n : Nat) : FanState :=
  ⟨List.replicate n WorkerPhase.pending⟩

/-- States the fan-out over `n` members can reach. -/
def Reachable (n : Nat) (s : FanState) : Prop :=
  Relation.ReflTransGen FanStep (initState n) s

/-! ### Concrete sample data (used to exercise the pipeline) -/

/-- Sample team event: alice's copy of `ev1` (2024-05-03 09:00 UTC). -/
def tevAlice1 : teamEvent :=
  { Who := "alice@x.com", ID := "ev1", Start := "09:00", End := "09:30",
    Summary := "Daily Standup", Status := "confirmed", sortKey := 63850323600 }

/-- Sample team event: bob's copy of the same `ev1`. -/
def tevBob1 : teamEvent :=
  { Who := "bob@x.com", ID := "ev1", Start := "09:00", End := "09:30",
    Summary := "Daily Standup", Status := "confirmed", sortKey := 63850323600 }

/-- Sample team event: bob's `ev2` (2024-05-03 14:00 UTC). -/
def tevBob2 : teamEvent :=
  { Who := "bob@x.com", ID := "ev2", Start := "14:00", End := "15:00",
    Summary := "Bob 1:1", Status := "confirmed", sortKey := 63850341600 }

/-- The three sample events in fetch order. -/
def sampleTeamEvents : List teamEvent := [tevAlice1, tevBob1, tevBob2]

/-- The expected merged `ev1` entry. -/
def tevMerged : teamEvent := { tevAlice1 with Who := "alice@x.com, bob@x.com" }

/-- A sample all-day event (no clock time, only a civil date). -/
def evAllDay : Event :=
  { Id := "ev3", Summary := "Offsite", Visibility := "", Status := "confirmed",
    Attendees := [], Start := some { Date := "2024-05-03", DateTime := "" }, End := none }

/-- A sample event the member has declined. -/
def evDeclined : Event :=
  { Id := "ev9", Summary := "Standup", Visibility := "", Status := "confirmed",
    Attendees := [{ ResponseStatus := "declined", Self := true }], Start := none, End := none }

/-- A private event whose original title contains the word busy. -/
def evBusyLunch : Event :=
  { Id := "e1", Summary := "Busy Lunch", Visibility := "private", Status := "confirmed",
    Attendees := [], Start := none, End := none }

/-- A private event that the member has declined. -/
def evPrivDeclined : Event :=
  { Id := "e2", Summary := "Secret", Visibility := "private", Status := "confirmed",
    Attendees := [{ ResponseStatus := "declined", Self := true }], Start := none, End := none }

/-- An event with no start block at all. -/
def evNoStart : Event :=
  { Id := "e3", Summary := "Floating", Visibility := "", Status := "confirmed",
    Attendees := [], Start := none, End := none }

/-- An event whose start block holds an unparseable timestamp. -/
def evBadStart : Event :=
  { Id := "e4", Summary := "Broken", Visibility := "", Status := "confirmed",
    Attendees := [], Start := some { Date := "", DateTime := "garbage" }, End := none }

/-- A fetch oracle where exactly one member's calendar fails. -/
def sampleFetch : String → Except String (List (Option Event)) :=
  fun m => if m == "bad@x.com" then Except.error "calendar unavailable" else Except.ok []

/-- Sample membership listing: a nil entry, a keyless entry, one user
with an email, and a nested group. -/
def sampleMemberships : List (Option GroupMembership) :=
  [none, some { PreferredMemberKey := none, MemberType := "USER" },
    some { PreferredMemberKey := some { Id := "a@x.com" }, MemberType := "USER" },
    some { PreferredMemberKey := some { Id := "grp@x.com" }, MemberType := "GROUP" }]

/-- Sample membership listing with no usable user member. -/
def sampleMembershipsNoUser : List (Option GroupMembership) :=
  [some { PreferredMemberKey := some { Id := "localpart" }, MemberType := "USER" }]

/-- The body of the member-extraction loop as an `Option`-valued step:
`some` exactly when the membership survives every check of `Run`. -/
def keepMember (om : Option GroupMembership) : Option String :=
  match om with
  | none => none
  | some mm =>
    match mm.PreferredMemberKey with
    | none => none
    | some k => if mm.MemberType == "USER" && strContains k.Id "@" then some k.Id else none

/-! ### Lemmas about `whoFold`, `extendWho`, `joinComma`, `modifyAt` -/

theorem whoFold_cons (id w : String) (x : teamEvent) (l : List teamEvent) :
    whoFold id w (x :: l) = whoFold id (if x.ID == id then w ++ ", " ++ x.Who else w) l := rfl

theorem extendWho_ID (e : teamEvent) (l : List teamEvent) : (extendWho e l).ID = e.ID := rfl

theorem extendWho_sortKey (e : teamEvent) (l : List teamEvent) :
    (extendWho e l).sortKey = e.sortKey := rfl

theorem extendWho_nil (e : teamEvent) : extendWho e [] = e := rfl

theorem extendWho_cons_of_ne {x e : teamEvent} (h : x.ID ≠ e.ID) (l : List teamEvent) :
    extendWho e (x :: l) = extendWho e l := by
  simp [extendWho, whoFold_cons, beq_eq_false_iff_ne.mpr h]

theorem extendWho_cons_of_eq {x e : teamEvent} (h : x.ID = e.ID) (l : List teamEvent) :
    extendWho e (x :: l) = extendWho { e with Who := e.Who ++ ", " ++ x.Who } l := by
  simp [extendWho, whoFold_cons, beq_iff_eq.mpr h]

theorem whoFold_filter {p : teamEvent → Bool} {id : String} :
    ∀ (l : List teamEvent) (w : String), (∀ x ∈ l, x.ID = id → p x = true) →
      whoFold id w (l.filter p) = whoFold id w l
  | [], w, _ => rfl
  | x :: l, w, h => by
    cases hp : p x with
    | true =>
      rw [List.filter_cons_of_pos hp, whoFold_cons, whoFold_cons]
      exact whoFold_filter l _ (fun y hy => h y (List.mem_cons_of_mem x hy))
    | false =>
      have hx : (x.ID == id) = false := by
        cases hbeq : x.ID == id with
        | false => rfl
        | true => rw [h x (List.mem_cons_self x l) (beq_iff_eq.mp hbeq)] at hp; exact hp
      rw [List.filter_cons_of_neg (by simp [hp]), whoFold_cons, hx]
      exact whoFold_filter l w (fun y hy => h y (List.mem_cons_of_mem x hy))

theorem whoFold_of_no_match {id : String} :
    ∀ (l : List teamEvent) (w : String), (∀ x ∈ l, x.ID ≠ id) → whoFold id w l = w
  | [], _, _ => rfl
  | x :: l, w, h => by
    rw [whoFold_cons, beq_eq_false_iff_ne.mpr (h x (List.mem_cons_self x l))]
    exact whoFold_of_no_match l w (fun y hy => h y (List.mem_cons_of_mem x hy))

theorem joinComma_merge (a b : String) :
    ∀ t : List String, joinComma ((a ++ ", " ++ b) :: t) = a ++ ", " ++ joinComma (b :: t)
  | [] => rfl
  | c :: t => by
    show (a ++ ", " ++ b) ++ ", " ++ joinComma (c :: t) = a ++ ", " ++ (b ++ ", " ++ joinComma (c :: t))
    simp [String.append_assoc]

theorem whoFold_join {i : String} :
    ∀ (l : List teamEvent) (w : String),
      whoFold i w l = joinComma (w :: (l.filter (fun y => y.ID == i)).map (fun y => y.Who))
  | [], w => rfl
  | x :: l, w => by
    rw [whoFold_cons]
    cases hx : x.ID == i with
    | true =>
      have hf : List.filter (fun y => y.ID == i) (x :: l)
          = x :: List.filter (fun y => y.ID == i) l :=
        List.filter_cons_of_pos hx
      rw [if_pos rfl, whoFold_join l (w ++ ", " ++ x.Who), hf, List.map_cons, joinComma_merge]
      rfl
    | false =>
      have hf : List.filter (fun y => y.ID == i) (x :: l)
          = List.filter (fun y => y.ID == i) l :=
        List.filter_cons_of_neg (by simp [hx])
      rw [if_neg (by simp), whoFold_join l w, hf]

theorem length_modifyAt (f : teamEvent → teamEvent) :
    ∀ (i : Nat) (l : List teamEvent), (modifyAt f i l).length = l.length
  | 0, [] => rfl
  | _ + 1, [] => rfl
  | 0, _ :: _ => rfl
  | i + 1, x :: xs => by simp [modifyAt, length_modifyAt f i xs]

theorem getElem?_modifyAt (f : teamEvent → teamEvent) :
    ∀ (l : List teamEvent) (i j : Nat),
      (modifyAt f i l)[j]? = if j = i then (l[j]?).map f else l[j]?
  | [], i, j => by simp [modifyAt]
  | x :: xs, 0, 0 => by simp [modifyAt]
  | x :: xs, 0, j + 1 => by simp [modifyAt]
  | x :: xs, i + 1, 0 => by simp [modifyAt]
  | x :: xs, i + 1, j + 1 => by
    simp only [modifyAt, List.getElem?_cons_succ]
    rw [getElem?_modifyAt f xs i j]
    simp [Nat.succ_inj]

/-! ### `dedupeTeamEvents` equals its recursive reformulation -/

theorem map_modifyAt_extendWho (ev : teamEvent) (rest : List teamEvent) :
    ∀ (result : List teamEvent) (idx : Nat),
      (∀ i e, result[i]? = some e → (e.ID = ev.ID ↔ i = idx)) →
      (modifyAt (fun r => { r with Who := r.Who ++ ", " ++ ev.Who }) idx result).map
          (fun e => extendWho e rest)
        = result.map (fun e => extendWho e (ev :: rest))
  | [], 0, _ => rfl
  | [], _ + 1, _ => rfl
  | x :: xs, 0, hij => by
    have hx : x.ID = ev.ID := (hij 0 x (by simp)).mpr rfl
    simp only [modifyAt, List.map_cons]
    congr 1
    · rw [extendWho_cons_of_eq hx.symm]
    · apply List.map_congr_left
      intro e he
      obtain ⟨n, hn⟩ := List.getElem?_of_mem he
      have hne : e.ID ≠ ev.ID := by
        intro hEq
        exact Nat.succ_ne_zero n ((hij (n + 1) e (by simpa using hn)).mp hEq)
      rw [extendWho_cons_of_ne (fun h => hne h.symm)]
  | x :: xs, n + 1, hij => by
    have hx : x.ID ≠ ev.ID := by
      intro hEq
      exact Nat.succ_ne_zero n ((hij 0 x (by simp)).mp hEq).symm
    simp only [modifyAt, List.map_cons]
    congr 1
    · rw [extendWho_cons_of_ne (fun h => hx h.symm)]
    · exact map_modifyAt_extendWho ev rest xs n (fun i e he => by
        have := hij (i + 1) e (by simpa using he)
        simpa [Nat.succ_inj] using this)

theorem dedupeLoop_eq (events : List teamEvent) :
    ∀ (seen : List (String × Nat)) (result : List teamEvent), SeenInv seen result →
      dedupeLoop events seen result
        = result.map (fun e => extendWho e events)
          ++ dedupeSpec (events.filter (fun ev => (List.lookup ev.ID seen).isNone)) := by
  induction events with
  | nil =>
    intro seen result _
    simp [dedupeLoop, dedupeSpec, extendWho_nil]
  | cons ev rest ih =>
    intro seen result hinv
    obtain ⟨hinv1, hinv2⟩ := hinv
    cases hl : List.lookup ev.ID seen with
    | some idx =>
      obtain ⟨e0, he0, he0ID⟩ := hinv1 ev.ID idx hl
      have hstep : dedupeLoop (ev :: rest) seen result
          = dedupeLoop rest seen
              (modifyAt (fun r => { r with Who := r.Who ++ ", " ++ ev.Who }) idx result) := by
        simp [dedupeLoop, hl]
      have hinv' : SeenInv seen
          (modifyAt (fun r => { r with Who := r.Who ++ ", " ++ ev.Who }) idx result) := by
        constructor
        · intro id2 i hli
          obtain ⟨e, he, heID⟩ := hinv1 id2 i hli
          by_cases hi : i = idx
          · subst hi
            refine ⟨{ e with Who := e.Who ++ ", " ++ ev.Who }, ?_, heID⟩
            rw [getElem?_modifyAt, if_pos rfl, he, Option.map_some']
          · exact ⟨e, by rw [getElem?_modifyAt, if_neg hi]; exact he, heID⟩
        · intro i e he
          rw [getElem?_modifyAt] at he
          by_cases hi : i = idx
          · rw [if_pos hi] at he
            rcases Option.map_eq_some'.mp he with ⟨e1, he1, hfe⟩
            have : e.ID = e1.ID := by rw [← hfe]
            rw [this]
            exact hinv2 i e1 he1
          · rw [if_neg hi] at he
            exact hinv2 i e he
      rw [hstep, ih _ _ hinv']
      have hfilter : (ev :: rest).filter (fun x => (List.lookup x.ID seen).isNone)
          = rest.filter (fun x => (List.lookup x.ID seen).isNone) := by
        rw [List.filter_cons_of_neg (by simp [hl])]
      rw [hfilter]
      congr 1
      apply map_modifyAt_extendWho
      intro i e he
      constructor
      · intro hID
        have h2 := hinv2 i e he
        rw [hID, hl] at h2
        exact (Option.some.inj h2).symm
      · intro hi
        subst hi
        have : e = e0 := Option.some.inj (he.symm.trans he0)
        rw [this, he0ID]
    | none =>
      have hstep : dedupeLoop (ev :: rest) seen result
          = dedupeLoop rest ((ev.ID, result.length) :: seen) (result ++ [ev]) := by
        simp [dedupeLoop, hl]
      have hIDnotin : ∀ (i : Nat) (e : teamEvent), result[i]? = some e → e.ID ≠ ev.ID := by
        intro i e he heq
        have h2 := hinv2 i e he
        rw [heq, hl] at h2
        exact Option.noConfusion h2
      have hinv' : SeenInv ((ev.ID, result.length) :: seen) (result ++ [ev]) := by
        constructor
        · intro id2 i hli
          rw [List.lookup_cons] at hli
          cases hid : id2 == ev.ID with
          | true =>
            rw [hid] at hli
            simp only at hli
            refine ⟨ev, ?_, (beq_iff_eq.mp hid).symm⟩
            rw [← Option.some.inj hli]
            exact List.getElem?_concat_length result ev
          | false =>
            rw [hid] at hli
            simp only at hli
            obtain ⟨e, he, heID⟩ := hinv1 id2 i hli
            refine ⟨e, ?_, heID⟩
            have hlt : i < result.length := by
              rcases List.getElem?_eq_some_iff.mp he with ⟨h, _⟩
              exact h
            rw [List.getElem?_append_left hlt]
            exact he
        · intro i e he
          by_cases hi : i < result.length
          · rw [List.getElem?_append_left hi] at he
            have h2 := hinv2 i e he
            rw [List.lookup_cons, beq_eq_false_iff_ne.mpr (hIDnotin i e he)]
            exact h2
          · by_cases hi2 : i = result.length
            · subst hi2
              rw [List.getElem?_concat_length] at he
              rw [← Option.some.inj he, List.lookup_cons]
              simp
            · exfalso
              have hge : result.length + 1 ≤ i := by
                omega
              rw [List.getElem?_eq_none (by simpa using hge)] at he
              exact Option.noConfusion he
      rw [hstep, ih _ _ hinv']
      have hfilter : (ev :: rest).filter (fun x => (List.lookup x.ID seen).isNone)
          = ev :: rest.filter (fun x => (List.lookup x.ID seen).isNone) := by
        rw [List.filter_cons_of_pos (by simp [hl])]
      rw [hfilter, dedupeSpec, List.map_append, List.map_singleton, List.append_assoc,
        List.singleton_append]
      congr 1
      · apply List.map_congr_left
        intro e he
        obtain ⟨n, hn⟩ := List.getElem?_of_mem he
        exact (extendWho_cons_of_ne (fun h => hIDnotin n e hn h.symm) rest).symm
      congr 1
      · show extendWho ev rest = extendWho ev (rest.filter (fun x => (List.lookup x.ID seen).isNone))
        unfold extendWho
        rw [whoFold_filter rest ev.Who (fun x _ hxid => by simp [hxid, hl])]
      · congr 1
        rw [List.filter_filter]
        apply List.filter_congr
        intro x _
        rw [List.lookup_cons]
        cases hid : x.ID == ev.ID with
        | true =>
          simp only [bne, hid, Bool.not_true, Bool.false_and]
          rfl
        | false =>
          simp only [bne, hid, Bool.not_false, Bool.true_and]

theorem dedupe_eq_spec (events : List teamEvent) :
    dedupeTeamEvents events = dedupeSpec events := by
  have h := dedupeLoop_eq events [] []
    ⟨fun id2 i h => by simp at h, fun i e h => by simp at h⟩
  simpa [dedupeTeamEvents, List.filter_true] using h

/-! ### Properties of the deduplicated output -/

theorem map_ID_filter (i : String) :
    ∀ l : List teamEvent,
      (l.filter (fun x => x.ID != i)).map (fun x => x.ID)
        = (l.map (fun x => x.ID)).filter (fun s => s != i)
  | [] => rfl
  | x :: l => by
    cases hp : x.ID != i with
    | true => simp [List.filter_cons, hp, map_ID_filter i l]
    | false => simp [List.filter_cons, hp, map_ID_filter i l]

theorem spec_map_ID : ∀ l : List teamEvent,
    (dedupeSpec l).map (fun e => e.ID) = firstIds (l.map (fun e => e.ID))
  | [] => by simp [dedupeSpec, firstIds]
  | e :: rest => by
    rw [dedupeSpec, List.map_cons, List.map_cons, extendWho_ID, firstIds,
      spec_map_ID (rest.filter (fun x => x.ID != e.ID)), map_ID_filter]
termination_by l => l.length
decreasing_by
  simp only [List.length_cons]
  exact Nat.lt_succ_of_le (List.length_filter_le _ _)

theorem mem_firstIds : ∀ (l : List String) (x : String), x ∈ firstIds l ↔ x ∈ l
  | [], x => by simp [firstIds]
  | i :: rest, x => by
    rw [firstIds]
    by_cases hx : x = i
    · simp [hx]
    · simp only [List.mem_cons, hx, false_or]
      rw [mem_firstIds (rest.filter (fun y => y != i)) x]
      simp [List.mem_filter, hx]
termination_by l => l.length
decreasing_by
  simp only [List.length_cons]
  exact Nat.lt_succ_of_le (List.length_filter_le _ _)

theorem firstIds_nodup : ∀ l : List String, (firstIds l).Nodup
  | [] => by simp [firstIds]
  | i :: rest => by
    rw [firstIds]
    refine List.nodup_cons.mpr ⟨?_, firstIds_nodup (rest.filter (fun y => y != i))⟩
    intro hmem
    rw [mem_firstIds] at hmem
    have := (List.mem_filter.mp hmem).2
    simp at this
termination_by l => l.length
decreasing_by
  simp only [List.length_cons]
  exact Nat.lt_succ_of_le (List.length_filter_le _ _)

theorem dedupeSpec_ID_mem (l : List teamEvent) (e : teamEvent) (h : e ∈ dedupeSpec l) :
    e.ID ∈ l.map (fun x => x.ID) := by
  have h1 : e.ID ∈ (dedupeSpec l).map (fun x => x.ID) := List.mem_map_of_mem _ h
  rw [spec_map_ID, mem_firstIds] at h1
  exact h1

theorem dedupeSpec_tail_ne {hd e : teamEvent} {rest : List teamEvent}
    (htail : e ∈ dedupeSpec (rest.filter (fun x => x.ID != hd.ID))) : e.ID ≠ hd.ID := by
  have h1 := dedupeSpec_ID_mem _ e htail
  rw [map_ID_filter] at h1
  have := (List.mem_filter.mp h1).2
  exact bne_iff_ne.mp this

theorem dedupeSpec_who : ∀ l : List teamEvent, ∀ e ∈ dedupeSpec l,
    e.Who = joinComma ((l.filter (fun x => x.ID == e.ID)).map (fun x => x.Who))
  | [], e => by simp [dedupeSpec]
  | hd :: rest, e => by
    rw [dedupeSpec]
    intro hmem
    rcases List.mem_cons.mp hmem with heq | htail
    · subst heq
      show whoFold hd.ID hd.Who rest = _
      rw [extendWho_ID, whoFold_join rest hd.Who]
      have hf : List.filter (fun x => x.ID == hd.ID) (hd :: rest)
          = hd :: List.filter (fun x => x.ID == hd.ID) rest :=
        List.filter_cons_of_pos (beq_iff_eq.mpr rfl)
      rw [hf, List.map_cons]
    · have hne : e.ID ≠ hd.ID := dedupeSpec_tail_ne htail
      have h1 := dedupeSpec_who (rest.filter (fun x => x.ID != hd.ID)) e htail
      have hfe : List.filter (fun a => a.ID == e.ID && a.ID != hd.ID) rest
          = List.filter (fun x => x.ID == e.ID) rest := by
        apply List.filter_congr
        intro x _
        cases hq : x.ID == e.ID with
        | true =>
          have hbne : (x.ID != hd.ID) = true := by
            rw [bne_iff_ne, beq_iff_eq.mp hq]
            exact hne
          simp [hbne]
        | false => simp [hq]
      rw [h1, List.filter_filter, hfe,
        List.filter_cons_of_neg (by simp [beq_eq_false_iff_ne.mpr (fun h => hne h.symm)])]
termination_by l => l.length
decreasing_by
  simp only [List.length_cons]
  exact Nat.lt_succ_of_le (List.length_filter_le _ _)

theorem find?_filter_invisible {p q : teamEvent → Bool} :
    ∀ l : List teamEvent, (∀ x ∈ l, p x = true → q x = true) →
      (l.filter q).find? p = l.find? p
  | [], _ => rfl
  | x :: l, h => by
    cases hq : q x with
    | true =>
      rw [List.filter_cons_of_pos hq]
      cases hp : p x with
      | true => rw [List.find?_cons_of_pos _ hp, List.find?_cons_of_pos _ hp]
      | false =>
        rw [List.find?_cons_of_neg _ (by simp [hp]), List.find?_cons_of_neg _ (by simp [hp])]
        exact find?_filter_invisible l (fun y hy => h y (List.mem_cons_of_mem x hy))
    | false =>
      have hp : p x = false := by
        cases hpx : p x with
        | false => rfl
        | true => rw [h x (List.mem_cons_self x l) hpx] at hq; exact hq
      rw [List.filter_cons_of_neg (by simp [hq]), List.find?_cons_of_neg _ (by simp [hp])]
      exact find?_filter_invisible l (fun y hy => h y (List.mem_cons_of_mem x hy))

theorem dedupeSpec_first : ∀ l : List teamEvent, ∀ e ∈ dedupeSpec l,
    ∃ first, l.find? (fun x => x.ID == e.ID) = some first ∧
      e.ID = first.ID ∧ e.Start = first.Start ∧ e.End = first.End ∧
      e.Summary = first.Summary ∧ e.Status = first.Status ∧ e.sortKey = first.sortKey
  | [], e => by simp [dedupeSpec]
  | hd :: rest, e => by
    rw [dedupeSpec]
    intro hmem
    rcases List.mem_cons.mp hmem with heq | htail
    · subst heq
      refine ⟨hd, ?_, rfl, rfl, rfl, rfl, rfl, rfl⟩
      rw [extendWho_ID]
      have hf : List.find? (fun x => x.ID == hd.ID) (hd :: rest) = some hd :=
        List.find?_cons_of_pos _ (beq_iff_eq.mpr rfl)
      rw [hf]
    · have hne : e.ID ≠ hd.ID := dedupeSpec_tail_ne htail
      obtain ⟨first, hfind, hfields⟩ :=
        dedupeSpec_first (rest.filter (fun x => x.ID != hd.ID)) e htail
      refine ⟨first, ?_, hfields⟩
      rw [List.find?_cons_of_neg _ (by simp [beq_eq_false_iff_ne.mpr (fun h => hne h.symm)])]
      rw [← hfind]
      exact (find?_filter_invisible rest (fun x _ hx => by
        rw [bne_iff_ne, beq_iff_eq.mp hx]; exact hne)).symm
termination_by l => l.length
decreasing_by
  simp only [List.length_cons]
  exact Nat.lt_succ_of_le (List.length_filter_le _ _)

theorem dedupeSpec_of_nodup : ∀ l : List teamEvent,
    (l.map (fun e => e.ID)).Nodup → dedupeSpec l = l
  | [], _ => by simp [dedupeSpec]
  | e :: rest, h => by
    rw [List.map_cons, List.nodup_cons] at h
    have h1 : ∀ x ∈ rest, x.ID ≠ e.ID := by
      intro x hx heq
      exact h.1 (heq ▸ List.mem_map_of_mem _ hx)
    rw [dedupeSpec]
    have hfull : rest.filter (fun x => x.ID != e.ID) = rest :=
      List.filter_eq_self.mpr (fun x hx => bne_iff_ne.mpr (h1 x hx))
    rw [hfull, dedupeSpec_of_nodup rest h.2]
    show extendWho e rest :: rest = e :: rest
    rw [extendWho, whoFold_of_no_match rest e.Who h1]
termination_by l => l.length
decreasing_by
  simp only [List.length_cons]
  omega

theorem spec_sortKeys :
    ∀ l : List teamEvent,
      ((dedupeSpec l).map (fun e => e.sortKey)).Sublist (l.map (fun e => e.sortKey))
  | [] => by simp [dedupeSpec]
  | e :: rest => by
    rw [dedupeSpec, List.map_cons, List.map_cons, extendWho_sortKey]
    exact List.Sublist.cons₂ _
      ((spec_sortKeys (rest.filter (fun x => x.ID != e.ID))).trans
        ((List.filter_sublist rest).map _))
termination_by l => l.length
decreasing_by
  simp only [List.length_cons]
  exact Nat.lt_succ_of_le (List.length_filter_le _ _)

theorem firstIds_length (L : List String) : (firstIds L).length = L.toFinset.card := by
  have h1 : (firstIds L).toFinset = L.toFinset := by
    apply Finset.ext
    intro a
    simp [List.mem_toFinset, mem_firstIds]
  rw [← h1, List.toFinset_card_of_nodup (firstIds_nodup L)]

/-! ### The claims about sorting and deduplication -/

/-- Claim C1: `dedupeTeamEvents` returns exactly one entry per distinct
event id, each at the position of the first occurrence of its id in the
input order, and each entry's `who` is the comma-joined list, in
first-seen order, of the contributing members' `who` fields. -/
theorem dedupe_merge_correct (events : List teamEvent) :
    (dedupeTeamEvents events).map (fun e => e.ID) = firstIds (events.map (fun e => e.ID))
    ∧ ∀ e ∈ dedupeTeamEvents events,
        e.Who = joinComma ((events.filter (fun x => x.ID == e.ID)).map (fun x => x.Who)) := by
  rw [dedupe_eq_spec]
  exact ⟨spec_map_ID events, dedupeSpec_who events⟩

/-- Witness for C1: two members sharing `ev1` yield one merged entry
whose `who` joins both identities in first-seen order. -/
theorem dedupe_merge_correct_witness :
    (dedupeTeamEvents sampleTeamEvents).map (fun e => e.ID)
        = firstIds (sampleTeamEvents.map (fun e => e.ID))
    ∧ tevMerged ∈ dedupeTeamEvents sampleTeamEvents
    ∧ tevMerged.Who
        = joinComma ((sampleTeamEvents.filter (fun x => x.ID == tevMerged.ID)).map
            (fun x => x.Who)) :=
  ⟨(dedupe_merge_correct sampleTeamEvents).1, by decide,
    (dedupe_merge_correct sampleTeamEvents).2 tevMerged (by decide)⟩

/-- Claim C4: after sorting, deduplication is idempotent: running
`dedupeTeamEvents` twice gives the same output as running it once. -/
theorem dedupe_idempotent (events : List teamEvent) :
    dedupeTeamEvents (dedupeTeamEvents (sortEvents events))
      = dedupeTeamEvents (sortEvents events) := by
  have h := dedupeSpec_of_nodup (dedupeSpec (sortEvents events))
    (by rw [spec_map_ID]; exact firstIds_nodup _)
  calc dedupeTeamEvents (dedupeTeamEvents (sortEvents events))
      = dedupeSpec (dedupeSpec (sortEvents events)) := by rw [dedupe_eq_spec, dedupe_eq_spec]
    _ = dedupeSpec (sortEvents events) := h
    _ = dedupeTeamEvents (sortEvents events) := (dedupe_eq_spec _).symm

/-- Claim C10: the deduplicated output has pairwise-distinct ids, its
length is the number of distinct ids in the input, and every field of
each entry except `Who` is the corresponding field of the first input
occurrence of that id. -/
theorem dedupe_invariants (events : List teamEvent) :
    ((dedupeTeamEvents events).map (fun e => e.ID)).Nodup
    ∧ (dedupeTeamEvents events).length = (events.map (fun e => e.ID)).toFinset.card
    ∧ ∀ e ∈ dedupeTeamEvents events,
        ∃ first, events.find? (fun x => x.ID == e.ID) = some first ∧
          e.ID = first.ID ∧ e.Start = first.Start ∧ e.End = first.End ∧
          e.Summary = first.Summary ∧ e.Status = first.Status ∧ e.sortKey = first.sortKey := by
  rw [dedupe_eq_spec]
  refine ⟨by rw [spec_map_ID]; exact firstIds_nodup _, ?_, dedupeSpec_first events⟩
  rw [← List.length_map (dedupeSpec events) (fun e => e.ID), spec_map_ID, firstIds_length]

/-- Witness for C10 at the sample events. -/
theorem dedupe_invariants_witness :
    ((dedupeTeamEvents sampleTeamEvents).map (fun e => e.ID)).Nodup
    ∧ (dedupeTeamEvents sampleTeamEvents).length
        = (sampleTeamEvents.map (fun e => e.ID)).toFinset.card
    ∧ ∃ first, sampleTeamEvents.find? (fun x => x.ID == tevMerged.ID) = some first ∧
        tevMerged.ID = first.ID ∧ tevMerged.Start = first.Start ∧ tevMerged.End = first.End ∧
        tevMerged.Summary = first.Summary ∧ tevMerged.Status = first.Status ∧
        tevMerged.sortKey = first.sortKey :=
  ⟨(dedupe_invariants sampleTeamEvents).1, (dedupe_invariants sampleTeamEvents).2.1,
    (dedupe_invariants sampleTeamEvents).2.2 tevMerged (by decide)⟩

/-- Transitivity of the comparison used by the sort step. -/
theorem sortLE_trans (a b c : teamEvent) :
    decide (a.sortKey ≤ b.sortKey) → decide (b.sortKey ≤ c.sortKey) →
      decide (a.sortKey ≤ c.sortKey) := by
  intro hab hbc
  exact decide_eq_true (le_trans (of_decide_eq_true hab) (of_decide_eq_true hbc))

/-- Totality of the comparison used by the sort step. -/
theorem sortLE_total (a b : teamEvent) :
    (decide (a.sortKey ≤ b.sortKey) || decide (b.sortKey ≤ a.sortKey)) = true := by
  simp only [Bool.or_eq_true, decide_eq_true_eq]
  exact le_total a.sortKey b.sortKey

/-- The sort step produces a list that is non-decreasing in `sortKey`. -/
theorem sortEvents_sorted (events : List teamEvent) :
    (sortEvents events).Pairwise (fun a b => a.sortKey ≤ b.sortKey) := by
  have hs := List.sorted_mergeSort sortLE_trans sortLE_total events
  exact hs.imp (fun h => of_decide_eq_true h)

/-- Claim C3: sorting then deduplicating yields a list that is
non-decreasing in the internal start timestamp; every merged entry sits
at the position of the first occurrence of its id in the sorted order;
and an all-day event's sortable timestamp is midnight (86400 seconds per
day) of its civil date. -/
theorem sort_dedup_order (events : List teamEvent) :
    (dedupeTeamEvents (sortEvents events)).Pairwise (fun a b => a.sortKey ≤ b.sortKey)
    ∧ (dedupeTeamEvents (sortEvents events)).map (fun e => e.ID)
        = firstIds ((sortEvents events).map (fun e => e.ID))
    ∧ ∀ (ev : Event) (st : EventDateTime) (y m d : Nat),
        ev.Start = some st → st.DateTime = "" → parseCivilDate st.Date = some (y, m, d) →
        parseEventStart ev = 86400 * dateToDays y m d := by
  refine ⟨?_, ?_, ?_⟩
  · rw [dedupe_eq_spec]
    have hs : ((sortEvents events).map (fun e => e.sortKey)).Pairwise
        (fun a b => a ≤ b) :=
      List.pairwise_map.mpr (sortEvents_sorted events)
    have hsub := List.Pairwise.sublist (spec_sortKeys (sortEvents events)) hs
    exact List.pairwise_map.mp hsub
  · rw [dedupe_eq_spec]
    exact spec_map_ID _
  · intro ev st y m d hst hdt hpd
    have hne : st.Date ≠ "" := by
      intro h0
      rw [h0] at hpd
      have hnone : parseCivilDate "" = none := rfl
      rw [hnone] at hpd
      exact Option.noConfusion hpd
    simp [parseEventStart, hst, hdt, parseDate, hpd, bne_iff_ne.mpr hne]

/-- Witness for C3: the sample events are already ordered; the sample
all-day event sorts at midnight of 2024-05-03. -/
theorem sort_dedup_order_witness :
    (dedupeTeamEvents (sortEvents sampleTeamEvents)).Pairwise
        (fun a b => a.sortKey ≤ b.sortKey)
    ∧ parseEventStart evAllDay = 86400 * dateToDays 2024 5 3 :=
  ⟨(sort_dedup_order sampleTeamEvents).1,
    (sort_dedup_order sampleTeamEvents).2.2 evAllDay { Date := "2024-05-03", DateTime := "" }
      2024 5 3 rfl rfl (by decide)⟩

/-! ### The claims about per-event filtering -/

/-- Claim C5: an event on which the requesting member is a self-attendee
with response status declined is excluded from that member's
contribution, whatever the query, visibility or other fields. -/
theorem declined_excluded (queryLower email : String) (loc : Int) (ev : Event)
    (h : ∃ att ∈ ev.Attendees, att.Self = true ∧ att.ResponseStatus = "declined") :
    processEvent queryLower email loc ev = none := by
  obtain ⟨att, hmem, hself, hresp⟩ := h
  have hd : ev.Attendees.any (fun a => a.Self && a.ResponseStatus == "declined") = true :=
    List.any_eq_true.mpr ⟨att, hmem, by rw [hself, hresp]; rfl⟩
  simp [processEvent, hd]

/-- Witness for C5: the declined sample event is dropped even with an
empty query. -/
theorem declined_excluded_witness :
    (∃ att ∈ evDeclined.Attendees, att.Self = true ∧ att.ResponseStatus = "declined")
    ∧ processEvent "" "alice@x.com" 0 evDeclined = none :=
  ⟨⟨{ ResponseStatus := "declined", Self := true }, by decide, rfl, rfl⟩,
    declined_excluded "" "alice@x.com" 0 evDeclined
      ⟨{ ResponseStatus := "declined", Self := true }, by decide, rfl, rfl⟩⟩

theorem strToLower_ne_empty {s : String} (h : s ≠ "") : strToLower s ≠ "" := by
  intro h2
  apply h
  cases s with
  | mk data =>
    have : data.map lowerChar = [] := congrArg String.data h2
    have hnil : data = [] := List.map_eq_nil_iff.mp this
    rw [hnil]

/-- Counterexample to C2 as stated: a private event whose original title
matches the query can still appear, because the filter runs on the
masked summary and the query `busy` also matches the sentinel; and with
the empty query a declined private event does not appear. -/
theorem privacy_mask_claim_fails :
    (evBusyLunch.Visibility = "private"
      ∧ ("busy" : String) ≠ ""
      ∧ strContains (strToLower evBusyLunch.Summary) (strToLower "busy") = true
      ∧ processEvent (strToLower "busy") "alice@x.com" 0 evBusyLunch ≠ none)
    ∧ (evPrivDeclined.Visibility = "private"
      ∧ processEvent (strToLower "") "alice@x.com" 0 evPrivDeclined = none) := by
  refine ⟨⟨rfl, by decide, by decide, by decide⟩, ⟨rfl, by decide⟩⟩

/-- Claim C2 (amended): the summary of a private or confidential event
is replaced by the sentinel before the query filter runs, so any such
event that survives carries the sentinel summary; for a non-empty query
that does not match the sentinel, a private event never appears no
matter its original title; and for the empty query a private event the
member has not declined appears, with summary `(busy)`. -/
theorem privacy_mask_precedes_filter (q email : String) (loc : Int) (ev : Event)
    (hvis : ev.Visibility = "private" ∨ ev.Visibility = "confidential") :
    (∀ te, processEvent (strToLower q) email loc ev = some te → te.Summary = "(busy)")
    ∧ (q ≠ "" → strContains (strToLower "(busy)") (strToLower q) = false →
        processEvent (strToLower q) email loc ev = none)
    ∧ (ev.Attendees.any (fun a => a.Self && a.ResponseStatus == "declined") = false →
        processEvent (strToLower "") email loc ev
          = some { Who := email, ID := ev.Id, Start := (formatEventTime ev loc).1,
                   End := (formatEventTime ev loc).2, Summary := "(busy)",
                   Status := ev.Status, sortKey := parseEventStart ev }) := by
  have hv : (ev.Visibility == "private" || ev.Visibility == "confidential") = true := by
    rcases hvis with h | h <;> simp [h]
  refine ⟨?_, ?_, ?_⟩
  · intro te hte
    by_cases hdecl : ev.Attendees.any (fun a => a.Self && a.ResponseStatus == "declined")
    · simp [processEvent, hdecl] at hte
    · simp only [processEvent, hdecl, hv, Bool.if_false_left, if_false, if_true] at hte
      by_cases hq : (strToLower q != "" && !strContains (strToLower "(busy)") (strToLower q)) = true
      · simp [hq] at hte
      · simp [hq] at hte
        rw [← hte]
  · intro hqne hnc
    by_cases hdecl : ev.Attendees.any (fun a => a.Self && a.ResponseStatus == "declined")
    · simp [processEvent, hdecl]
    · have hcond : (strToLower q != "" && !strContains (strToLower "(busy)") (strToLower q)) = true := by
        rw [hnc]
        simp [bne_iff_ne, strToLower_ne_empty hqne]
      simp [processEvent, hdecl, hv, hcond]
  · intro hdecl
    simp [processEvent, hdecl, hv, strToLower]

/-- Witness for C2 (amended): for the sample private event, the query
`standup` filters it out, and the empty query lets it through masked. -/
theorem privacy_mask_precedes_filter_witness :
    processEvent (strToLower "standup") "alice@x.com" 0 evBusyLunch = none
    ∧ processEvent (strToLower "") "alice@x.com" 0 evBusyLunch
        = some { Who := "alice@x.com", ID := evBusyLunch.Id,
                 Start := (formatEventTime evBusyLunch 0).1,
                 End := (formatEventTime evBusyLunch 0).2, Summary := "(busy)",
                 Status := evBusyLunch.Status, sortKey := parseEventStart evBusyLunch } :=
  ⟨(privacy_mask_precedes_filter "standup" "alice@x.com" 0 evBusyLunch (Or.inl rfl)).2.1
      (by decide) (by decide),
    (privacy_mask_precedes_filter "" "alice@x.com" 0 evBusyLunch (Or.inl rfl)).2.2 rfl⟩

/-- Claim C7: an event with no start block yields empty start and end
display strings and the zero sortable timestamp; a start block whose
timestamp fields fail to parse likewise yields the zero timestamp and an
empty display string instead of an error. -/
theorem missing_start_zero (q email : String) (loc : Int) (ev : Event) (st : EventDateTime) :
    (ev.Start = none →
      formatEventTime ev loc = ("", "")
      ∧ parseEventStart ev = 0
      ∧ ∀ te, processEvent q email loc ev = some te →
          te.Start = "" ∧ te.End = "" ∧ te.sortKey = 0)
    ∧ (ev.Start = some st → parseRFC3339 st.DateTime = none → parseDate st.Date = none →
        parseEventStart ev = 0)
    ∧ (ev.Start = some st → st.Date = "" → parseRFC3339 st.DateTime = none →
        (formatEventTime ev loc).1 = "") := by
  refine ⟨?_, ?_, ?_⟩
  · intro hs
    refine ⟨by simp [formatEventTime, hs], by simp [parseEventStart, hs], ?_⟩
    intro te hte
    by_cases hdecl : ev.Attendees.any (fun a => a.Self && a.ResponseStatus == "declined")
    · simp [processEvent, hdecl] at hte
    · simp [processEvent, hdecl] at hte
      rw [← hte.2]
      refine ⟨?_, ?_, ?_⟩
      · show (formatEventTime ev loc).1 = ""
        simp [formatEventTime, hs]
      · show (formatEventTime ev loc).2 = ""
        simp [formatEventTime, hs]
      · show parseEventStart ev = 0
        simp [parseEventStart, hs]
  · intro hs hdt hda
    by_cases h1 : st.DateTime = "" <;> by_cases h2 : st.Date = ""
    · simp [parseEventStart, hs, h1, h2]
    · simp [parseEventStart, hs, h1, bne_iff_ne.mpr h2, hda]
    · simp [parseEventStart, hs, bne_iff_ne.mpr h1, hdt, h2]
    · simp [parseEventStart, hs, bne_iff_ne.mpr h1, hdt, bne_iff_ne.mpr h2, hda]
  · intro hs hda hdt
    by_cases h1 : st.DateTime = ""
    · simp [formatEventTime, hs, hda, h1]
    · simp [formatEventTime, hs, hda, bne_iff_ne.mpr h1, hdt]

/-- Witness for C7: an event without a start block and an event with an
unparseable timestamp both get empty displays and timestamp zero. -/
theorem missing_start_zero_witness :
    (formatEventTime evNoStart 0 = ("", "")
      ∧ parseEventStart evNoStart = 0)
    ∧ parseEventStart evBadStart = 0
    ∧ (formatEventTime evBadStart 0).1 = "" :=
  ⟨⟨((missing_start_zero "" "w@x.com" 0 evNoStart { Date := "", DateTime := "" }).1 rfl).1,
      ((missing_start_zero "" "w@x.com" 0 evNoStart { Date := "", DateTime := "" }).1 rfl).2.1⟩,
    (missing_start_zero "" "w@x.com" 0 evBadStart { Date := "", DateTime := "garbage" }).2.1
      rfl (by decide) (by decide),
    (missing_start_zero "" "w@x.com" 0 evBadStart { Date := "", DateTime := "garbage" }).2.2
      rfl rfl (by decide)⟩

/-! ### The claims about aggregation and membership -/

theorem aggregate_ok_errors (fetch : String → Except String (List (Option Event)))
    (q : String) (loc : Int) :
    ∀ l : List String, (∀ m ∈ l, ∃ evs, fetch m = .ok evs) →
      (aggregateEvents fetch q loc l).2 = []
  | [], _ => rfl
  | m :: rest, h => by
    obtain ⟨evs, hm⟩ := h m (List.mem_cons_self m rest)
    have htail := aggregate_ok_errors fetch q loc rest
      (fun x hx => h x (List.mem_cons_of_mem m hx))
    simp [aggregateEvents, hm, htail]

/-- Claim C6: when exactly one member's fetch fails, the aggregation
still returns the events of every other member and records exactly the
single warning `"<memberIdentity>: <underlying error>"`; the failing
member's events are simply absent. -/
theorem partial_failure_resilient (fetch : String → Except String (List (Option Event)))
    (q : String) (loc : Int) (f e : String) (hf : fetch f = .error e) :
    ∀ pre post : List String, (∀ m ∈ pre ++ post, ∃ evs, fetch m = .ok evs) →
      (aggregateEvents fetch q loc (pre ++ f :: post)).2 = [f ++ ": " ++ e]
      ∧ (aggregateEvents fetch q loc (pre ++ f :: post)).1
          = (aggregateEvents fetch q loc (pre ++ post)).1
  | [], post, hok => by
    have herr := aggregate_ok_errors fetch q loc post (fun x hx => hok x hx)
    simp [aggregateEvents, hf, herr]
  | p :: pre, post, hok => by
    obtain ⟨evs, hp⟩ := hok p (List.mem_cons_self p (pre ++ post))
    obtain ⟨ih2, ih1⟩ := partial_failure_resilient fetch q loc f e hf pre post
      (fun x hx => hok x (List.mem_cons_of_mem p hx))
    constructor
    · simp [aggregateEvents, hp, ih2]
    · simp [aggregateEvents, hp, ih1]

/-- Witness for C6: with one failing member out of three, both other
members' contributions survive and exactly one warning is recorded. -/
theorem partial_failure_resilient_witness :
    (aggregateEvents sampleFetch "" 0 ["alice@x.com", "bad@x.com", "carol@x.com"]).2
        = ["bad@x.com" ++ ": " ++ "calendar unavailable"]
    ∧ (aggregateEvents sampleFetch "" 0 ["alice@x.com", "bad@x.com", "carol@x.com"]).1
        = (aggregateEvents sampleFetch "" 0 ["alice@x.com", "carol@x.com"]).1 :=
  partial_failure_resilient sampleFetch "" 0 "bad@x.com" "calendar unavailable" rfl
    ["alice@x.com"] ["carol@x.com"]
    (fun m hm => ⟨[], by fin_cases hm <;> rfl⟩)

theorem extract_step (acc : List String) (om : Option GroupMembership) :
    (match om with
      | none => acc
      | some mm =>
        match mm.PreferredMemberKey with
        | none => acc
        | some k =>
          if mm.MemberType == "USER" && strContains k.Id "@" then acc ++ [k.Id] else acc)
    = (match keepMember om with | none => acc | some s => acc ++ [s]) := by
  match om with
  | none => rfl
  | some mm =>
    match hk : mm.PreferredMemberKey with
    | none => simp [keepMember, hk]
    | some k =>
      cases hc : mm.MemberType == "USER" && strContains k.Id "@" with
      | true => simp [keepMember, hk, hc]
      | false => simp [keepMember, hk, hc]

theorem extract_foldl (ms : List (Option GroupMembership)) :
    ∀ acc : List String,
      (ms.foldl (fun acc m =>
        match m with
        | none => acc
        | some mm =>
          match mm.PreferredMemberKey with
          | none => acc
          | some k =>
            if mm.MemberType == "USER" && strContains k.Id "@" then acc ++ [k.Id] else acc) acc)
        = acc ++ ms.filterMap keepMember := by
  induction ms with
  | nil => intro acc; simp
  | cons om ms ih =>
    intro acc
    simp only [List.foldl_cons]
    rw [extract_step acc om]
    cases hkm : keepMember om with
    | none =>
      rw [List.filterMap_cons_none hkm]
      exact ih acc
    | some s =>
      rw [List.filterMap_cons_some hkm]
      have h := ih (acc ++ [s])
      rw [List.append_assoc] at h
      exact h

theorem extract_eq_filterMap (ms : List (Option GroupMembership)) :
    extractMemberEmails ms = ms.filterMap keepMember := by
  have h := extract_foldl ms []
  simpa [extractMemberEmails] using h

/-- Claim C8: the extracted member list consists of exactly the listed
memberships that are present, carry a member key, have type `USER`, and
whose id contains an `@`; when no such member exists the membership
phase ends in a printed diagnostic, not an error. -/
theorem member_extraction (ms : List (Option GroupMembership)) (g : String) :
    (∀ e : String, e ∈ extractMemberEmails ms ↔
        ∃ om ∈ ms, ∃ mm, om = some mm ∧ ∃ k, mm.PreferredMemberKey = some k ∧
          mm.MemberType = "USER" ∧ strContains k.Id "@" = true ∧ e = k.Id)
    ∧ (extractMemberEmails ms = [] →
        ∃ msg, membersPhase g (.ok ms) = .diagnostic msg) := by
  constructor
  · intro e
    rw [extract_eq_filterMap, List.mem_filterMap]
    constructor
    · rintro ⟨om, hom, hkeep⟩
      match om with
      | none => exact absurd hkeep (by simp [keepMember])
      | some mm =>
        match hk : mm.PreferredMemberKey with
        | none => rw [keepMember, hk] at hkeep; exact Option.noConfusion hkeep
        | some k =>
          rw [keepMember, hk] at hkeep
          cases hc : mm.MemberType == "USER" && strContains k.Id "@" with
          | false => simp [hc] at hkeep
          | true =>
            simp [hc] at hkeep
            have hand := Bool.and_eq_true_iff.mp hc
            exact ⟨some mm, hom, mm, rfl, k, hk, beq_iff_eq.mp hand.1, hand.2, hkeep.symm⟩
    · rintro ⟨om, hom, mm, rfl, k, hk, htype, hat, rfl⟩
      refine ⟨some mm, hom, ?_⟩
      rw [keepMember, hk, htype]
      simp [hat]
  · intro hempty
    by_cases hms : ms.length = 0
    · exact ⟨"No members in group " ++ g, by simp [membersPhase, hms]⟩
    · exact ⟨"No user members in group " ++ g, by simp [membersPhase, hms, hempty]⟩

/-- Witness for C8: in the sample listing only `a@x.com` is extracted,
and a listing with no usable user yields a diagnostic outcome. -/
theorem member_extraction_witness :
    ("a@x.com" ∈ extractMemberEmails sampleMemberships)
    ∧ (∃ msg, membersPhase "g@x.com" (.ok sampleMembershipsNoUser) = .diagnostic msg) :=
  ⟨((member_extraction sampleMemberships "g@x.com").1 "a@x.com").mpr
      ⟨some { PreferredMemberKey := some { Id := "a@x.com" }, MemberType := "USER" },
        by decide, { PreferredMemberKey := some { Id := "a@x.com" }, MemberType := "USER" },
        rfl, { Id := "a@x.com" }, rfl, rfl, by decide, rfl⟩,
    (member_extraction sampleMembershipsNoUser "g@x.com").2 (by decide)⟩

/-! ### The claim about the fan-out concurrency ceiling -/

/-- Claim C9: in the semaphore discipline of the fan-out, every
reachable state of the scheduler has at most 10 workers holding a slot,
so at most 10 fetches are ever in flight, for any number of members. -/
theorem semaphore_bound (n : Nat) (s : FanState) (h : Reachable n s) :
    holdingCount s ≤ 10 := by
  induction h with
  | refl =>
    have : holdingCount (initState n) = 0 := by
      apply List.countP_eq_zero.mpr
      intro a ha
      rw [List.eq_of_mem_replicate ha]
      simp
    omega
  | tail hab hbc ih =>
    cases hbc with
    | acquire pre post hlt =>
      simp only [holdingCount] at hlt ih ⊢
      simp [List.countP_append, List.countP_cons] at hlt ih ⊢
      omega
    | release pre post =>
      simp only [holdingCount] at ih ⊢
      simp [List.countP_append, List.countP_cons] at ih ⊢
      omega

/-- Witness for C9: the initial state of a 50-member fan-out is
reachable and holds no more than 10 slots. -/
theorem semaphore_bound_witness :
    Reachable 50 (initState 50) ∧ holdingCount (initState 50) ≤ 10 :=
  ⟨Relation.ReflTransGen.refl,
    semaphore_bound 50 (initState 50) Relation.ReflTransGen.refl⟩

end Gogcli
